import Mathlib

/-!
Verification development for the voice catalog and asset management
subsystem of the make-audiobook GUI: the voice data model and catalog
parser, the catalog cache/fetch worker, the download/install pipeline,
the conversion worker state machine, command construction, progress
parsing, and the configuration loader.

Each Python module is shallowly embedded as executable Lean definitions:
dictionaries become association lists (Python dicts preserve insertion
order), machine floats used for simple ratios become exact rationals,
exceptions become `Except`, and Qt signal emissions become explicit event
lists.
-/

set_option autoImplicit false
set_option synthInstance.maxSize 512

namespace MakeAudiobook

/-! ## Association-list helpers for Python dict semantics

Python `d[k] = v` keeps the position of an existing key and otherwise
appends at the end.  `setKey` mirrors that. -/

def setKey {α : Type} (l : List (String × α)) (k : String) (v : α) :
    List (String × α) :=
  if l.any (fun p => p.1 == k) then
    l.map (fun p => if p.1 == k then (k, v) else p)
  else
    l ++ [(k, v)]

def getKey {α : Type} (l : List (String × α)) (k : String) : Option α :=
  (l.find? (fun p => p.1 == k)).map Prod.snd

def hasKey {α : Type} (l : List (String × α)) (k : String) : Bool :=
  l.any (fun p => p.1 == k)

/-! ## Voice model — `src/gui/models/voice.py`

A file-metadata dict entry holds `size_bytes` and `md5_digest`; the code
reads both through `.get` with a default, so each field is optional. -/

structure FileInfo where
  size_bytes : Option Nat
  md5_digest : Option String
deriving DecidableEq, Repr

/-- One leaf voice descriptor of `voices.json`: the fields `from_dict`
reads (`key`, `name`, `files`), each through `.get` with a default. -/
structure VoiceData where
  key : Option String
  name : Option String
  files : Option (List (String × FileInfo))
deriving DecidableEq, Repr

structure Voice where
  key : String
  name : String
  language : String
  quality : String
  files : List (String × FileInfo)
  size_bytes : Nat
  installed : Bool := false
deriving DecidableEq, Repr

/-- Python `str.title()` restricted to the alphabetic/cased characters the
model needs: uppercase a letter that follows a non-letter, lowercase the
rest. -/
def titleAux : Bool → List Char → List Char
  | _, [] => []
  | prevCased, c :: cs =>
      (if c.isAlpha then (if prevCased then c.toLower else c.toUpper) else c)
        :: titleAux c.isAlpha cs

def title (s : String) : String := ⟨titleAux false s.data⟩

/-- The three-level `voices.json` mapping:
language → speaker → quality → descriptor. -/
abbrev CatalogInput :=
  List (String × List (String × List (String × VoiceData)))

/-- `sum(file_info.get("size_bytes", 0) for file_info in
voice_data.get("files", {}).values())`. -/
def fileSizeSum (fs : List (String × FileInfo)) : Nat :=
  (fs.map (fun p => p.2.size_bytes.getD 0)).sum

/-- Python `str.endswith`, transparently as a suffix test on the
character list. -/
def strEndsWith (s t : String) : Bool := t.data.isSuffixOf s.data

/-- The `files` normalisation loop of `VoiceCatalog.from_dict`: keep only
filenames ending in `.onnx.json` or `.onnx`, keyed by the extension. -/
def normFiles (fs : List (String × FileInfo)) : List (String × FileInfo) :=
  fs.foldl
    (fun acc p =>
      if strEndsWith p.1 ".onnx.json" then setKey acc ".onnx.json" p.2
      else if strEndsWith p.1 ".onnx" then setKey acc ".onnx" p.2
      else acc)
    []

/-- The body of the innermost loop of `VoiceCatalog.from_dict`: build one
`Voice` from one leaf descriptor. -/
def mkVoice (lang speaker quality : String) (vd : VoiceData) : Voice :=
  { key := vd.key.getD (lang ++ "-" ++ speaker ++ "-" ++ quality)
    name := vd.name.getD (title speaker)
    language := lang
    quality := quality
    files := normFiles (vd.files.getD [])
    size_bytes := fileSizeSum (vd.files.getD [])
    installed := false }

/-- The leaf descriptors of the input in the iteration order of the three
nested loops of `from_dict`. -/
def leaves (data : CatalogInput) :
    List (String × String × String × VoiceData) :=
  data.flatMap (fun lp =>
    lp.2.flatMap (fun sp =>
      sp.2.map (fun qp => (lp.1, sp.1, qp.1, qp.2))))

structure VoiceCatalog where
  voices : List Voice
deriving DecidableEq, Repr

/-- `VoiceCatalog.from_dict`: the nested loops append one voice per leaf
descriptor, in iteration order. -/
def VoiceCatalog.from_dict (data : CatalogInput) : VoiceCatalog :=
  ⟨(leaves data).map (fun l => mkVoice l.1 l.2.1 l.2.2.1 l.2.2.2)⟩

/-- `VoiceCatalog.get_by_key`: loop over `voices`, return the first match,
else `None`. -/
def VoiceCatalog.get_by_key (c : VoiceCatalog) (key : String) :
    Option Voice :=
  c.voices.find? (fun v => v.key == key)

/-! ## Download pipeline — `src/gui/workers/download_worker.py`

`DownloadWorker.run` creates the voice directory, then for every
`(ext, file_info)` of the voice checks the cancellation flag, streams the
file to `{filename}.tmp` in 64 KiB chunks (checking the flag before each
chunk), renames the temp file onto the final name, and verifies the MD5
digest when one was declared.

The embedding makes the externals explicit:
* the network is a map from filename to either a chunk list or an
  exception message (`requests.get`/`iter_content`);
* `hashlib.md5(...).hexdigest()` is an arbitrary function from file
  content (a byte list) to a hex string, passed in the environment;
* the cooperative `_cancelled` flag is monotone — it reads `False` for the
  first `cancelAt` reads and `True` from then on (`none` = never set);
* the voice directory is an association list filename → content;
* `progress`/`finished`/`error` signal emissions are an event list. -/

inductive DlEvent
  | progress (n : Nat)
  | finished (ok : Bool)
  | error (msg : String)
deriving DecidableEq, Repr

structure DlEnv where
  network : String → Except String (List (List Nat))
  md5Hex : List Nat → String
  cancelAt : Option Nat

structure DlState where
  fs : List (String × List Nat)
  events : List DlEvent
  checks : Nat
deriving Repr

def fsRemove (fs : List (String × List Nat)) (path : String) :
    List (String × List Nat) :=
  fs.filter (fun p => p.1 != path)

/-- One read of `self._cancelled`, numbering the reads in program order. -/
def checkCancelled (env : DlEnv) (st : DlState) : Bool × DlState :=
  ((match env.cancelAt with
    | none => false
    | some k => decide (k ≤ st.checks)),
   { st with checks := st.checks + 1 })

/-- The chunk loop of `DownloadWorker._download_file`: before writing each
chunk check the flag (on cancellation stop, reporting `True` in the third
component); otherwise write the chunk, add its length to the running byte
count, and when `total > 0` emit `min (downloaded * 100 / total) 99`.
Returns (content written, updated byte count, cancelled-early, state). -/
def writeChunks (env : DlEnv) :
    List (List Nat) → Nat → Nat → List Nat → DlState →
    List Nat × Nat × Bool × DlState
  | [], downloaded, _total, written, st => (written, downloaded, false, st)
  | c :: cs, downloaded, total, written, st =>
      let r := checkCancelled env st
      if r.1 then (written, downloaded, true, r.2)
      else
        let downloaded' := downloaded + c.length
        let st2 :=
          if total > 0 then
            { r.2 with events := r.2.events ++
                [.progress (min (downloaded' * 100 / total) 99)] }
          else r.2
        writeChunks env cs downloaded' total (written ++ c) st2

/-- `DownloadWorker._download_file`.  `temp_path` is the target path with
`".tmp"` appended (`Path.with_suffix` on the last suffix).  A network
failure is the raised exception (`Except.error`).  A mid-chunk
cancellation unlinks the temp file and returns the byte count without
renaming; otherwise the temp file is renamed onto the target. -/
def download_file (env : DlEnv) (targetPath : String)
    (downloaded total : Nat) (st : DlState) :
    Except (String × DlState) (Nat × DlState) :=
  let tempPath := targetPath ++ ".tmp"
  match env.network targetPath with
  | .error e => .error (e, st)
  | .ok chunks =>
      let st0 := { st with fs := setKey st.fs tempPath [] }
      match writeChunks env chunks downloaded total [] st0 with
      | (written, dl', cancelledEarly, st1) =>
          if cancelledEarly then
            .ok (dl', { st1 with fs := fsRemove st1.fs tempPath })
          else
            let fsWritten := setKey st1.fs tempPath written
            let fsRenamed :=
              setKey (fsRemove fsWritten tempPath) targetPath written
            .ok (dl', { st1 with fs := fsRenamed })

/-- `DownloadWorker._verify_checksum`: read the target file (raising
`FileNotFoundError` if it does not exist), hash it, compare hex digests. -/
def verify_checksum (env : DlEnv) (fs : List (String × List Nat))
    (path expected : String) : Except String Bool :=
  match getKey fs path with
  | none => .error "FileNotFoundError"
  | some content => .ok (env.md5Hex content == expected)

/-- The per-file loop of `DownloadWorker.run`: check the flag between
files (emitting `finished False` when set), download, then — when a
digest was declared — verify it, emitting `finished False` on mismatch.
Any raised exception emits `error` then `finished False`.  After the last
file emit `progress 100` and `finished True`. -/
def runFiles (env : DlEnv) (voice : Voice) :
    List (String × FileInfo) → Nat → Nat → DlState → DlState
  | [], _downloaded, _total, st =>
      { st with events := st.events ++ [.progress 100, .finished true] }
  | (ext, info) :: rest, downloaded, total, st =>
      let r := checkCancelled env st
      if r.1 then { r.2 with events := r.2.events ++ [.finished false] }
      else
        let filename := voice.key ++ ext
        let expected := info.md5_digest.getD ""
        match download_file env filename downloaded total r.2 with
        | .error (e, st2) =>
            { st2 with events := st2.events ++ [.error e, .finished false] }
        | .ok (dl', st2) =>
            if expected ≠ "" then
              match verify_checksum env st2.fs filename expected with
              | .error e =>
                  { st2 with events :=
                      st2.events ++ [.error e, .finished false] }
              | .ok true => runFiles env voice rest dl' total st2
              | .ok false =>
                  { st2 with events := st2.events ++ [.finished false] }
            else runFiles env voice rest dl' total st2

/-- `DownloadWorker.run`, started on a voice directory whose prior
contents are `fs0`. -/
def DownloadWorker.run (env : DlEnv) (voice : Voice)
    (fs0 : List (String × List Nat)) : DlState :=
  runFiles env voice voice.files 0 voice.size_bytes
    { fs := fs0, events := [], checks := 0 }

/-! ## Conversion job — `src/gui/models/conversion_job.py` -/

inductive JobStatus
  | pending | in_progress | completed | failed | cancelled
deriving DecidableEq, Repr

structure ConversionJob where
  files : List String
  voice_key : Option String := none
  random_voice : Bool := false
  random_filter : Option String := none
  length_scale : ℚ := 3 / 2
  author : Option String := none
  title : Option String := none
  status : JobStatus := .pending
  progress : Int := 0
  current_file_index : Option Int := none
  log_messages : List String := []
  error_message : Option String := none
  output_files : List String := []
deriving DecidableEq, Repr

/-! ## Conversion worker — `src/gui/workers/conversion_worker.py`

The worker owns one job and one optional `QProcess`; the model keeps the
fields the embedded handlers touch: whether `self._process` is set,
whether `terminate()` has been issued, the current file and its progress
estimate. -/

structure ConversionWorker where
  job : ConversionJob
  processSet : Bool := false
  terminated : Bool := false
  current_file : Option String := none
  current_file_progress : Int := 0
deriving DecidableEq, Repr

/-- `ConversionWorker._build_command` with `get_script_path()` abstracted
as the string it returns.  `if self._job.random_filter:` is Python
truthiness: `None` and `""` both take the plain `--random` branch. -/
def build_command (scriptPath : String) (job : ConversionJob) :
    List String :=
  [scriptPath]
    ++ (if job.random_voice then
          (if job.random_filter.getD "" ≠ "" then
            ["--random=" ++ job.random_filter.getD ""]
          else ["--random"])
        else [])
    ++ (if job.length_scale ≠ 1 then
          ["--length_scale=" ++ toString job.length_scale]
        else [])
    ++ job.files

/-- `ConversionWorker._on_process_started`. -/
def onProcessStarted (w : ConversionWorker) : ConversionWorker :=
  let w := { w with job := { w.job with status := .in_progress } }
  if w.job.files ≠ [] then
    { w with current_file := w.job.files.head?,
             job := { w.job with current_file_index := some 0 } }
  else w

/-- `ConversionWorker._on_process_finished`: map the exit code to the job
outcome and emit `finished (filename, success)`. -/
def onProcessFinished (w : ConversionWorker) (exit_code : Int) :
    ConversionWorker × String × Bool :=
  let success := exit_code == 0
  let failedJob :=
    { w.job with
        status := JobStatus.failed
        error_message :=
          some ("Process exited with code " ++ toString exit_code) }
  let job :=
    if success then { w.job with status := JobStatus.completed }
    else failedJob
  ({ w with job := job }, (w.current_file.getD "", success))

/-- `ConversionWorker.cancel`: when a process exists, mark the job
cancelled and terminate the process. -/
def ConversionWorker.cancel (w : ConversionWorker) : ConversionWorker :=
  if w.processSet then
    { w with job := { w.job with status := .cancelled }, terminated := true }
  else w

/-- Python `l[i]` with negative indexing: a negative index counts from
the end; still out of range raises `IndexError` (`none`). -/
def pyGet {α : Type} (l : List α) (i : Int) : Option α :=
  if 0 ≤ i then l.get? i.toNat
  else if 0 ≤ (l.length : Int) + i then l.get? ((l.length : Int) + i).toNat
  else none

/-- The `"Processing file N of M"` branch of
`ConversionWorker._parse_progress_output`, given the two captured groups
(`\d+` captures, hence naturals).  The guard is `current <= len(files)`
only.  `int((current - 1) / total * 100)` is float division truncated
toward zero, i.e. `Int.div`; `total = 0` raises `ZeroDivisionError` and
an out-of-range list access raises `IndexError` (both `none`). -/
def parse_progress_file_match (w : ConversionWorker) (current total : Nat) :
    Option (ConversionWorker × List (String × Int)) :=
  if current ≤ w.job.files.length then
    match pyGet w.job.files ((current : Int) - 1) with
    | none => none
    | some cf =>
        if total = 0 then none
        else
          let overall := Int.tdiv (((current : Int) - 1) * 100) (total : Int)
          some ({ w with current_file := some cf,
                          current_file_progress := 0 },
                [(cf, overall)])
  else some (w, [])

/-! ## Catalog worker — `src/gui/workers/catalog_worker.py`

The environment carries the cache file's age in seconds (`none` = the
file does not exist), the result of `json.load` on it (`none` =
`JSONDecodeError`/`IOError`, which `_load_from_cache` swallows), and the
network outcome.  The result records the emitted signals, how many
network requests were made, and the payload written to the cache file. -/

structure CatEnv where
  cacheAge : Option Nat
  cacheData : Option CatalogInput
  network : Except String CatalogInput

inductive CatEvent
  | catalogReady (c : VoiceCatalog)
  | error (msg : String)
deriving DecidableEq, Repr

structure CatResult where
  events : List CatEvent
  networkCalls : Nat
  cacheWritten : Option CatalogInput
deriving DecidableEq, Repr

/-- `CatalogWorker._is_cache_valid`: the file exists and
`now - mtime < timedelta(hours=24)` (strict). -/
def is_cache_valid (env : CatEnv) : Bool :=
  match env.cacheAge with
  | none => false
  | some age => decide (age < 24 * 3600)

/-- `CatalogWorker._load_from_cache`: `None` on a swallowed read/parse
error, otherwise the parsed catalog. -/
def load_from_cache (env : CatEnv) : Option VoiceCatalog :=
  env.cacheData.map VoiceCatalog.from_dict

/-- `CatalogWorker._fetch_from_network` together with the surrounding
`try/except` of `run`: one request; on success save the payload to the
cache and emit the parsed catalog, on failure emit the error. -/
def fetch_from_network (env : CatEnv) : CatResult :=
  match env.network with
  | .ok data =>
      { events := [.catalogReady (VoiceCatalog.from_dict data)]
        networkCalls := 1
        cacheWritten := some data }
  | .error e =>
      { events := [.error e], networkCalls := 1, cacheWritten := none }

/-- `CatalogWorker.run`. -/
def CatalogWorker.run (env : CatEnv) (force_refresh : Bool) : CatResult :=
  if ¬force_refresh ∧ is_cache_valid env then
    match load_from_cache env with
    | some catalog =>
        { events := [.catalogReady catalog]
          networkCalls := 0
          cacheWritten := none }
    | none => fetch_from_network env
  else fetch_from_network env

/-! ## Configuration loader — `src/gui/utils/config.py`

A JSON config value: `.num` covers JSON numbers (exact rationals in the
model; `isinstance(ls, (int, float))`), with Python's `bool` kept
separate because `json.load` yields `True`/`False` for JSON booleans —
and `isinstance(True, int)` holds, with `True == 1`. -/

inductive CVal
  | num (q : ℚ)
  | str (s : String)
  | bool (b : Bool)
  | null
deriving DecidableEq, Repr

abbrev ConfigDict := List (String × CVal)

def get_default_config : ConfigDict :=
  [("last_voice", .null), ("speed", .num 1), ("random_voice", .bool false),
   ("random_filter", .null), ("window_geometry", .null),
   ("last_directory", .null)]

/-- Python `dict.update`: apply `d[k] = v` for each pair of `upd`. -/
def dictUpdate (base upd : ConfigDict) : ConfigDict :=
  upd.foldl (fun acc p => setKey acc p.1 p.2) base

/-- Python `dict.pop(k)` for a dict (keys unique): drop the entry. -/
def dictPop (d : ConfigDict) (k : String) : ConfigDict :=
  d.filter (fun p => p.1 != k)

/-- Python `round` to one decimal: round half to even. -/
def roundHalfEven (q : ℚ) : ℤ :=
  let n := ⌊q⌋
  if q - n < 1 / 2 then n
  else if (1 : ℚ) / 2 < q - n then n + 1
  else if n % 2 = 0 then n else n + 1

def round1 (q : ℚ) : ℚ := (roundHalfEven (q * 10) : ℚ) / 10

/-- `load_config` on a stored payload that exists and parses (`loaded` is
the `json.load` result; a dict, so its keys are unique).  Mirrors the
merge with defaults and the `length_scale` → `speed` migration; for a
Python `bool` value `1/True = 1.0` and `1/False` raises, but `False > 0`
is false so the `False` case just drops the field. -/
def load_config (loaded : ConfigDict) : ConfigDict :=
  let result := dictUpdate get_default_config loaded
  if hasKey result "length_scale" ∧ ¬hasKey loaded "speed" then
    let ls := getKey result "length_scale"
    let result := dictPop result "length_scale"
    match ls with
    | some (.num q) =>
        if 0 < q then setKey result "speed" (.num (round1 (1 / q)))
        else result
    | some (.bool b) =>
        if b then setKey result "speed" (.num (round1 1)) else result
    | _ => result
  else if hasKey result "length_scale" then
    dictPop result "length_scale"
  else result

/-! ## Derived notions used by the statements -/

/-- The progress percentages among a worker's emitted events, in order. -/
def progressValues (evs : List DlEvent) : List Nat :=
  evs.filterMap (fun e =>
    match e with
    | .progress n => some n
    | _ => none)

/-- Spec-side description of the progress sequence: the cumulative byte
count after each chunk (`acc` bytes already downloaded before). -/
def cumulativeBytes : Nat → List (List Nat) → List Nat
  | _, [] => []
  | acc, c :: cs => (acc + c.length) :: cumulativeBytes (acc + c.length) cs

/-- The chunk stream the network serves for the given files of a voice,
in file order. -/
def netChunks (env : DlEnv) (key : String)
    (files : List (String × FileInfo)) : List (List Nat) :=
  files.flatMap (fun p =>
    match env.network (key ++ p.1) with
    | .ok cs => cs
    | .error _ => [])

/-- Spec-side per-chunk progress values:
`floor(bytes_so_far / size * 100)` clamped to at most 99. -/
def specProgress (size : Nat) (bytes : List Nat) : List Nat :=
  bytes.map (fun b => min (b * 100 / size) 99)

/-- A command-line token that switches on random-voice mode. -/
def RandomMarker (s : String) : Prop :=
  s = "--random" ∨ ∃ q, s = "--random=" ++ q

/-- A command-line token that sets the length scale. -/
def LengthArg (s : String) : Prop :=
  ∃ x, s = "--length_scale=" ++ x

/-! ## Concrete instances used by the counterexamples and witnesses -/

/-- A single-file voice declaring an MD5 digest. -/
def dlVoiceA : Voice :=
  { key := "en_US-ryan-high", name := "Ryan", language := "en_US",
    quality := "high",
    files := [(".onnx", { size_bytes := some 3, md5_digest := some "abc" })],
    size_bytes := 3 }

/-- The network serves one 3-byte chunk; the streamed bytes hash to a
digest different from the declared `"abc"`; no cancellation. -/
def dlEnvBad : DlEnv :=
  { network := fun _ => .ok [[1, 2, 3]],
    md5Hex := fun c => "h" ++ toString c.length,
    cancelAt := none }

/-- Same network, but the cancellation flag is observed on its second
read — i.e. at the first between-chunks check. -/
def dlEnvCancel : DlEnv := { dlEnvBad with cancelAt := some 1 }

/-- Same network, digests match; no cancellation. -/
def dlEnvGood : DlEnv := { dlEnvBad with md5Hex := fun _ => "abc" }

/-- A worker whose process has been started (`self._process` set). -/
def cwStart : ConversionWorker :=
  { job := { files := ["a.txt"] }, processSet := true }

/-- Two leaf descriptors declaring the same explicit `key`. -/
def dupInput : CatalogInput :=
  [("en", [("a",
      [("low", { key := some "dup", name := none, files := none }),
       ("high", { key := some "dup", name := none, files := none })])])]

/-- A two-leaf input: one leaf with two meaningful files plus an ignored
filename, one malformed leaf without `files`. -/
def c7Input : CatalogInput :=
  [("en_US", [("ryan",
      [("high",
        { key := none, name := none,
          files := some
            [("en_US/ryan/high/en_US-ryan-high.onnx",
              { size_bytes := some 100, md5_digest := some "a" }),
             ("en_US/ryan/high/en_US-ryan-high.onnx.json",
              { size_bytes := some 10, md5_digest := some "b" }),
             ("en_US/ryan/high/MODEL_CARD",
              { size_bytes := some 5, md5_digest := none })] }),
       ("low", { key := none, name := none, files := none })])])]

def c4Data : CatalogInput :=
  [("en", [("a", [("low", { key := some "k", name := none, files := none })])])]

/-- Cache 23 hours old, parseable; network down. -/
def c4EnvFresh : CatEnv :=
  { cacheAge := some (23 * 3600), cacheData := some c4Data,
    network := .error "connection refused" }

/-- Cache 25 hours old; network serves the document. -/
def c4EnvStale : CatEnv :=
  { cacheAge := some (25 * 3600), cacheData := some [],
    network := .ok c4Data }

def c8Job : ConversionJob :=
  { files := ["book.txt", "notes.txt"], voice_key := some "en_US-ryan-high",
    random_voice := true, random_filter := some "medium",
    length_scale := 9 / 5 }

def c9Loaded : ConfigDict :=
  [("length_scale", .num (3 / 2)), ("last_voice", .str "en_US-ryan-high")]

def c10Worker : ConversionWorker :=
  { job := { files := ["f1", "f2", "f3"] } }

/-! # Theorems -/

/-- C1.  The claim fails on the code: `_download_file` renames the temp
file onto the final canonical name *before* `run` verifies the digest, so
on a mismatch the install reports failure (`finished False`, no final
`progress 100`) yet the corrupt content sits at the final canonical path
`{voices_root}/{language}/{key}/{key}.onnx`, and the `.tmp` file is gone
— the exact opposite of "the corrupt content may remain only in the .tmp
file, never under the final name". -/
theorem c1_digest_mismatch_installs_corrupt_file :
    (DownloadWorker.run dlEnvBad dlVoiceA []).events
        = [.progress 99, .finished false] ∧
    getKey (DownloadWorker.run dlEnvBad dlVoiceA []).fs
        "en_US-ryan-high.onnx" = some [1, 2, 3] ∧
    getKey (DownloadWorker.run dlEnvBad dlVoiceA []).fs
        "en_US-ryan-high.onnx.tmp" = none ∧
    dlEnvBad.md5Hex [1, 2, 3] ≠ "abc" := by
  decide

/-- C2.  The claim fails on the code: `cancel()` sets the job to
`cancelled`, but `_on_process_finished` later overwrites the status
unconditionally — exit code 0 turns a cancelled job into `completed`
(and a nonzero exit into `failed`), a transition out of a terminal
state. -/
theorem c2_cancelled_overwritten_on_process_exit :
    ((onProcessStarted cwStart).cancel).job.status = .cancelled ∧
    (onProcessFinished ((onProcessStarted cwStart).cancel) 0).1.job.status
        = .completed ∧
    (onProcessFinished ((onProcessStarted cwStart).cancel) 1).1.job.status
        = .failed := by
  decide

/-- C3.  The claim fails on the code: when the flag is observed between
chunks, `_download_file` deletes the temp file and returns, but `run`
then verifies the checksum of the never-renamed final file; the `open`
raises, and the handler emits an `error` notification (in addition to
`finished False`) — cancellation here does trigger an error. -/
theorem c3_midchunk_cancel_emits_error :
    (DownloadWorker.run dlEnvCancel dlVoiceA []).events
        = [.error "FileNotFoundError", .finished false] ∧
    getKey (DownloadWorker.run dlEnvCancel dlVoiceA []).fs
        "en_US-ryan-high.onnx.tmp" = none := by
  decide

/-- C10.  In the "Processing file N of M" branch the guard only checks
`N ≤ len(files)`, so `N = 0` passes; `files[N - 1]` is `files[-1]`,
Python negative indexing, which selects the *last* input file; and the
emitted overall progress `int((N-1)/M * 100) = (-100) tdiv M` is below 0
whenever `M ≤ 100` — neither the file selection nor the emitted progress
is confined to its nominal range. -/
theorem c10_processing_file_zero (w : ConversionWorker) (M : ℕ)
    (h1 : w.job.files ≠ []) (h2 : 1 ≤ M) (h3 : M ≤ 100) :
    0 ≤ w.job.files.length ∧
    ∃ cf,
      w.job.files.getLast? = some cf ∧
      parse_progress_file_match w 0 M =
        some ({ w with current_file := some cf,
                       current_file_progress := 0 },
              [(cf, Int.tdiv (-100) (M : ℤ))]) ∧
      Int.tdiv (-100) (M : ℤ) < 0 := by
  refine ⟨Nat.zero_le _, ?_⟩
  have hlen : 1 ≤ w.job.files.length := List.length_pos.2 h1
  have hget : w.job.files.get? (w.job.files.length - 1)
      = w.job.files.getLast? := (List.getLast?_eq_get? _).symm
  obtain ⟨cf, hcf⟩ : ∃ cf, w.job.files.getLast? = some cf := by
    cases hcf : w.job.files.getLast? with
    | none => exact absurd (List.getLast?_eq_none_iff.1 hcf) h1
    | some cf => exact ⟨cf, rfl⟩
  refine ⟨cf, hcf, ?_, ?_⟩
  · have hM0 : M ≠ 0 := by omega
    have hneg : ¬ (0 : ℤ) ≤ (0 : ℤ) - 1 := by omega
    have hpos : (0 : ℤ) ≤ (w.job.files.length : ℤ) + ((0 : ℤ) - 1) := by
      omega
    have htn : (((w.job.files.length : ℤ) + ((0 : ℤ) - 1))).toNat
        = w.job.files.length - 1 := by omega
    simp only [parse_progress_file_match, pyGet, Nat.zero_le, if_true,
      hneg, if_false, hpos, if_true, htn, hget, hcf, hM0,
      Nat.cast_zero]
    norm_num
  · have h100 : Int.tdiv (-100) (M : ℤ) = -((100 / M : ℕ) : ℤ) := by
      have : ((100 : ℕ) : ℤ).tdiv ((M : ℕ) : ℤ) = ((100 / M : ℕ) : ℤ) := rfl
      calc Int.tdiv (-100) (M : ℤ) = -(((100 : ℕ) : ℤ).tdiv (M : ℤ)) := by
            rw [← Int.neg_tdiv]; norm_num
        _ = -((100 / M : ℕ) : ℤ) := by rw [this]
    have hdiv : 1 ≤ 100 / M := (Nat.one_le_div_iff (by omega)).2 h3
    omega

/-- C10 witness: three input files, "Processing file 0 of 2" selects the
last file "f3" and emits overall progress −50. -/
theorem c10_processing_file_zero_witness :
    0 ≤ c10Worker.job.files.length ∧
    ∃ cf,
      c10Worker.job.files.getLast? = some cf ∧
      parse_progress_file_match c10Worker 0 2 =
        some ({ c10Worker with current_file := some cf,
                               current_file_progress := 0 },
              [(cf, Int.tdiv (-100) (2 : ℤ))]) ∧
      Int.tdiv (-100) (2 : ℤ) < 0 :=
  c10_processing_file_zero c10Worker 2 (by decide) (by decide) (by decide)

/-- C5 counterexample: two leaves declaring the same explicit key `"dup"`
parse into a catalog that *does* hold duplicate keys, and `get_by_key`
returns the first-parsed record (quality `"low"`), not the last-parsed
one — refuting both "no duplicate keys" and "last-parsed wins". -/
theorem c5_duplicate_keys_counterexample :
    ¬ ((VoiceCatalog.from_dict dupInput).voices.map Voice.key).Nodup ∧
    ∃ v, (VoiceCatalog.from_dict dupInput).get_by_key "dup" = some v ∧
      v.quality = "low" ∧
      (VoiceCatalog.from_dict dupInput).voices.getLast? ≠ some v := by
  refine ⟨by decide, mkVoice "en" "a" "low"
    { key := some "dup", name := none, files := none }, by decide,
    by decide, by decide⟩

/-- C5 (amended): parsing keeps every leaf's record, duplicate keys
included, and `get_by_key k` returns a record whose key equals `k`
whenever `k` was produced by parsing — the *first*-parsed such record —
and `None` for any key not present. -/
theorem c5_get_by_key_first_match (data : CatalogInput) (k : String) :
    (∀ v, (VoiceCatalog.from_dict data).get_by_key k = some v →
        v.key = k ∧ v ∈ (VoiceCatalog.from_dict data).voices) ∧
    ((VoiceCatalog.from_dict data).get_by_key k = none ↔
        k ∉ (VoiceCatalog.from_dict data).voices.map Voice.key) ∧
    (∀ l₁ v l₂, (VoiceCatalog.from_dict data).voices = l₁ ++ v :: l₂ →
        v.key = k → (∀ u ∈ l₁, u.key ≠ k) →
        (VoiceCatalog.from_dict data).get_by_key k = some v) := by
  refine ⟨?_, ?_, ?_⟩
  · intro v hv
    refine ⟨?_, List.mem_of_find?_eq_some hv⟩
    have := List.find?_some hv
    simpa using this
  · rw [VoiceCatalog.get_by_key, List.find?_eq_none]
    constructor
    · intro h hk
      obtain ⟨v, hv, hvk⟩ := List.mem_map.1 hk
      exact h v hv (by simpa using hvk)
    · intro h v hv
      simp only [beq_iff_eq]
      intro hvk
      exact h (List.mem_map.2 ⟨v, hv, hvk⟩)
  · intro l₁ v l₂ hsplit hvk hl₁
    rw [VoiceCatalog.get_by_key, hsplit, List.find?_append]
    have h₁ : l₁.find? (fun u => u.key == k) = none :=
      List.find?_eq_none.2 (fun u hu => by simpa using hl₁ u hu)
    have h₂ : (v :: l₂).find? (fun u => u.key == k) = some v := by
      simp [List.find?, hvk]
    rw [h₁, h₂]
    rfl

/-- C5 witness: on the duplicate-key input, `get_by_key "dup"` returns a
record with key `"dup"` that is in the catalog, and `get_by_key "absent"`
is `None`. -/
theorem c5_get_by_key_first_match_witness :
    (∀ v, (VoiceCatalog.from_dict dupInput).get_by_key "absent" = some v →
        v.key = "absent" ∧ v ∈ (VoiceCatalog.from_dict dupInput).voices) ∧
    ((VoiceCatalog.from_dict dupInput).get_by_key "absent" = none ↔
        "absent" ∉ (VoiceCatalog.from_dict dupInput).voices.map Voice.key) ∧
    (∀ l₁ v l₂,
        (VoiceCatalog.from_dict dupInput).voices = l₁ ++ v :: l₂ →
        v.key = "absent" → (∀ u ∈ l₁, u.key ≠ "absent") →
        (VoiceCatalog.from_dict dupInput).get_by_key "absent" = some v) :=
  c5_get_by_key_first_match dupInput "absent"

/-- Membership after a Python-style dict assignment: the entry was either
already present or is the assigned pair. -/
theorem setKey_mem {α : Type} {l : List (String × α)} {k e : String}
    {v fi : α} (h : (e, fi) ∈ setKey l k v) :
    (e, fi) ∈ l ∨ (e = k ∧ fi = v) := by
  unfold setKey at h
  split at h
  · obtain ⟨p, hp, hpe⟩ := List.mem_map.1 h
    by_cases hk : p.1 == k
    · right
      rw [if_pos hk] at hpe
      exact ⟨(Prod.mk.injEq .. ▸ hpe).1.symm, (Prod.mk.injEq .. ▸ hpe).2.symm⟩
    · left
      rw [if_neg hk] at hpe
      exact hpe ▸ hp
  · rcases List.mem_append.1 h with h' | h'
    · exact Or.inl h'
    · right
      have := List.mem_singleton.1 h'
      exact ⟨(Prod.mk.injEq .. ▸ this).1, (Prod.mk.injEq .. ▸ this).2⟩

/-- Every entry the `files`-normalisation fold produces comes from a
source filename ending in `.onnx.json` or (exclusively) `.onnx`. -/
theorem normFiles_fold_mem (fs : List (String × FileInfo))
    (acc : List (String × FileInfo)) (e : String) (fi : FileInfo)
    (h : (e, fi) ∈ fs.foldl
      (fun acc p =>
        if strEndsWith p.1 ".onnx.json" then setKey acc ".onnx.json" p.2
        else if strEndsWith p.1 ".onnx" then setKey acc ".onnx" p.2
        else acc) acc) :
    (e, fi) ∈ acc ∨
    ∃ fn, (fn, fi) ∈ fs ∧
      ((strEndsWith fn ".onnx.json" = true ∧ e = ".onnx.json") ∨
       (strEndsWith fn ".onnx.json" = false ∧ strEndsWith fn ".onnx" = true ∧
        e = ".onnx")) := by
  induction fs generalizing acc with
  | nil => exact Or.inl h
  | cons p rest ih =>
    rw [List.foldl_cons] at h
    rcases ih _ h with h' | ⟨fn, hfn, hcase⟩
    · by_cases hj : strEndsWith p.1 ".onnx.json"
      · rw [if_pos hj] at h'
        rcases setKey_mem h' with h'' | ⟨he, hv⟩
        · exact Or.inl h''
        · exact Or.inr ⟨p.1, by rw [hv]; exact List.mem_cons_self p rest,
            Or.inl ⟨hj, he⟩⟩
      · rw [if_neg hj] at h'
        by_cases ho : strEndsWith p.1 ".onnx"
        · rw [if_pos ho] at h'
          rcases setKey_mem h' with h'' | ⟨he, hv⟩
          · exact Or.inl h''
          · exact Or.inr ⟨p.1, by rw [hv]; exact List.mem_cons_self p rest,
              Or.inr ⟨Bool.of_not_eq_true hj, ho, he⟩⟩
        · rw [if_neg ho] at h'
          exact Or.inl h'
    · exact Or.inr ⟨fn, List.mem_cons_of_mem p hfn, hcase⟩

/-- C7.  Parsing a three-level document produces exactly one record per
leaf descriptor (it is total, so a bad leaf never aborts the parse); each
record's `size_bytes` is the sum of the leaf's declared file sizes, a
leaf without `files` giving a zero-size record; and every entry of a
record's `files` mapping stems from a declared filename ending in
`.onnx.json` or (exclusively) `.onnx`. -/
theorem c7_parse_entry_local (data : CatalogInput) :
    (VoiceCatalog.from_dict data).voices
        = (leaves data).map (fun lf => mkVoice lf.1 lf.2.1 lf.2.2.1 lf.2.2.2) ∧
    (VoiceCatalog.from_dict data).voices.length = (leaves data).length ∧
    ∀ lf ∈ leaves data,
      (mkVoice lf.1 lf.2.1 lf.2.2.1 lf.2.2.2).size_bytes
          = fileSizeSum (lf.2.2.2.files.getD []) ∧
      (lf.2.2.2.files = none →
          (mkVoice lf.1 lf.2.1 lf.2.2.1 lf.2.2.2).size_bytes = 0) ∧
      ∀ e fi, (e, fi) ∈ (mkVoice lf.1 lf.2.1 lf.2.2.1 lf.2.2.2).files →
          ∃ fn, (fn, fi) ∈ lf.2.2.2.files.getD [] ∧
            ((strEndsWith fn ".onnx.json" = true ∧ e = ".onnx.json") ∨
             (strEndsWith fn ".onnx.json" = false ∧
              strEndsWith fn ".onnx" = true ∧ e = ".onnx")) := by
  refine ⟨rfl, by simp [VoiceCatalog.from_dict], ?_⟩
  intro lf _
  refine ⟨rfl, ?_, ?_⟩
  · intro hnone
    simp [mkVoice, hnone, fileSizeSum]
  · intro e fi hmem
    have := normFiles_fold_mem (lf.2.2.2.files.getD []) [] e fi hmem
    rcases this with h | h
    · exact absurd h (List.not_mem_nil _)
    · exact h

/-- C7 witness: on a two-leaf input the parse yields two records; the
well-formed leaf's size is 100+10+5 = 115 (summing the ignored
`MODEL_CARD` file too, as declared) and its files mapping has exactly
the `.onnx`/`.onnx.json` entries; the `files`-less leaf yields size 0. -/
theorem c7_parse_entry_local_witness :
    (VoiceCatalog.from_dict c7Input).voices.length = (leaves c7Input).length ∧
    (leaves c7Input).length = 2 ∧
    (∀ lf ∈ leaves c7Input,
        (mkVoice lf.1 lf.2.1 lf.2.2.1 lf.2.2.2).size_bytes
          = fileSizeSum (lf.2.2.2.files.getD [])) ∧
    ((VoiceCatalog.from_dict c7Input).voices.map Voice.size_bytes
        = [115, 0]) ∧
    ((VoiceCatalog.from_dict c7Input).voices.map
        (fun v => v.files.map Prod.fst)
        = [[".onnx", ".onnx.json"], []]) :=
  ⟨(c7_parse_entry_local c7Input).2.1, by decide,
   fun lf h => ((c7_parse_entry_local c7Input).2.2 lf h).1,
   by decide, by decide⟩

/-- C4.  With `force_refresh` false: a cache file younger than 24 hours
that parses is returned with zero network accesses; when the cache is
absent, at least 24 hours old, or malformed, the worker silently falls
back to exactly one network fetch, whose payload is written to the cache
and whose parsed catalog is emitted on success, while a network failure
is emitted through the `error` channel. -/
theorem c4_cache_freshness (env : CatEnv) :
    (∀ age d, env.cacheAge = some age → age < 24 * 3600 →
        env.cacheData = some d →
        CatalogWorker.run env false =
          { events := [.catalogReady (VoiceCatalog.from_dict d)],
            networkCalls := 0, cacheWritten := none }) ∧
    ((env.cacheAge = none ∨
      (∃ age, env.cacheAge = some age ∧ 24 * 3600 ≤ age) ∨
      env.cacheData = none) →
        CatalogWorker.run env false = fetch_from_network env ∧
        (CatalogWorker.run env false).networkCalls = 1 ∧
        (∀ d, env.network = .ok d →
            CatalogWorker.run env false =
              { events := [.catalogReady (VoiceCatalog.from_dict d)],
                networkCalls := 1, cacheWritten := some d }) ∧
        (∀ e, env.network = .error e →
            CatalogWorker.run env false =
              { events := [.error e], networkCalls := 1,
                cacheWritten := none })) := by
  constructor
  · intro age d hage hlt hdata
    have hvalid : is_cache_valid env = true := by
      simp [is_cache_valid, hage, hlt]
    simp [CatalogWorker.run, hvalid, load_from_cache, hdata]
  · intro hbad
    have hfetch : CatalogWorker.run env false = fetch_from_network env := by
      rcases hbad with hnone | ⟨age, hage, hge⟩ | hdata
      · simp [CatalogWorker.run, is_cache_valid, hnone]
      · have hvalid : is_cache_valid env = false := by
          simp [is_cache_valid, hage]
          omega
        simp [CatalogWorker.run, hvalid]
      · by_cases hvalid : is_cache_valid env
        · simp [CatalogWorker.run, hvalid, load_from_cache, hdata]
        · simp [CatalogWorker.run, hvalid]
    refine ⟨hfetch, ?_, ?_, ?_⟩
    · rw [hfetch]
      unfold fetch_from_network
      cases env.network <;> rfl
    · intro d hd
      rw [hfetch]
      simp [fetch_from_network, hd]
    · intro e he
      rw [hfetch]
      simp [fetch_from_network, he]

/-- C4 witness: a 23-hour-old parseable cache is served with zero network
calls even though the network is down; a 25-hour-old cache forces exactly
one network call whose payload is cached and returned. -/
theorem c4_cache_freshness_witness :
    CatalogWorker.run c4EnvFresh false =
      { events := [.catalogReady (VoiceCatalog.from_dict c4Data)],
        networkCalls := 0, cacheWritten := none } ∧
    CatalogWorker.run c4EnvStale false =
      { events := [.catalogReady (VoiceCatalog.from_dict c4Data)],
        networkCalls := 1, cacheWritten := some c4Data } :=
  ⟨(c4_cache_freshness c4EnvFresh).1 (23 * 3600) c4Data rfl (by norm_num)
      rfl,
   ((c4_cache_freshness c4EnvStale).2
      (Or.inr (Or.inl ⟨25 * 3600, rfl, by norm_num⟩))).2.2.1 c4Data rfl⟩

/-! ### Association-list lemmas shared by the configuration proofs -/

theorem hasKey_eq_isSome {α : Type} (l : List (String × α)) (k : String) :
    hasKey l k = (getKey l k).isSome := by
  induction l with
  | nil => rfl
  | cons p rest ih =>
    by_cases h : p.1 == k
    · simp [hasKey, getKey, List.find?, h]
    · simp only [hasKey, getKey, List.any_cons, List.find?, h] at *
      simpa [h] using ih

theorem find?_setKey_map {α : Type} (l : List (String × α)) (k : String)
    (v : α) :
    ((l.map (fun p => if p.1 == k then (k, v) else p)).find?
        (fun p => p.1 == k))
      = if hasKey l k then some (k, v) else none := by
  induction l with
  | nil => rfl
  | cons p rest ih =>
    by_cases h : (p.1 == k) = true
    · have hpv : (if (p.1 == k) = true then (k, v) else p) = (k, v) :=
        if_pos h
      simp only [List.map_cons, hpv]
      rw [List.find?_cons_of_pos _ (by simp)]
      have hh : hasKey (p :: rest) k = true := by simp [hasKey, h]
      simp [hh]
    · have hb : (p.1 == k) = false := by simpa using h
      have hpv : (if (p.1 == k) = true then (k, v) else p) = p := by
        simp [hb]
      simp only [List.map_cons, hpv]
      rw [List.find?_cons_of_neg _ (by simp [hb]), ih]
      have hh : hasKey (p :: rest) k = hasKey rest k := by
        simp [hasKey, hb]
      rw [hh]

theorem getKey_setKey_self {α : Type} (l : List (String × α)) (k : String)
    (v : α) : getKey (setKey l k v) k = some v := by
  unfold setKey
  by_cases h : l.any (fun p => p.1 == k)
  · rw [if_pos h, getKey, find?_setKey_map]
    have : hasKey l k = true := h
    simp [this]
  · rw [if_neg h, getKey, List.find?_append]
    have hn : l.find? (fun p => p.1 == k) = none := by
      rw [List.find?_eq_none]
      intro p hp hpk
      exact h (List.any_eq_true.2 ⟨p, hp, hpk⟩)
    simp [hn, List.find?]

theorem getKey_setKey_ne {α : Type} (l : List (String × α))
    (k k' : String) (v : α) (h : (k == k') = false) :
    getKey (setKey l k v) k' = getKey l k' := by
  unfold setKey
  by_cases hk : l.any (fun p => p.1 == k)
  · rw [if_pos hk]
    unfold getKey
    congr 1
    clear hk
    induction l with
    | nil => rfl
    | cons p rest ih =>
      by_cases hp : (p.1 == k) = true
      · have hpv : (if (p.1 == k) = true then (k, v) else p) = (k, v) :=
          if_pos hp
        have hp1 : p.1 = k := by simpa using hp
        have hk' : ((k, v).1 == k') = false := h
        have hpk' : (p.1 == k') = false := by rw [hp1]; exact h
        simp only [List.map_cons, hpv]
        rw [List.find?_cons_of_neg _ (by simp [hk']),
          List.find?_cons_of_neg _ (by simp [hpk']), ih]
      · have hb : (p.1 == k) = false := by simpa using hp
        have hpv : (if (p.1 == k) = true then (k, v) else p) = p := by
          simp [hb]
        simp only [List.map_cons, hpv]
        by_cases hpk : (p.1 == k') = true
        · rw [@List.find?_cons_of_pos _ (fun q => q.1 == k') p _ hpk,
            @List.find?_cons_of_pos _ (fun q => q.1 == k') p rest hpk]
        · have hbk : (p.1 == k') = false := by simpa using hpk
          rw [List.find?_cons_of_neg _ (by simp [hbk]),
            List.find?_cons_of_neg _ (by simp [hbk]), ih]
  · rw [if_neg hk, getKey, getKey, List.find?_append]
    have : List.find? (fun p => p.1 == k') [(k, v)] = none := by
      simp [List.find?, h]
    rw [this]
    cases l.find? (fun p => p.1 == k') <;> rfl

theorem hasKey_setKey {α : Type} (l : List (String × α)) (k k' : String)
    (v : α) :
    hasKey (setKey l k v) k' = (hasKey l k' || (k == k')) := by
  by_cases h : k == k'
  · have hk : k = k' := by simpa using h
    subst hk
    rw [hasKey_eq_isSome, getKey_setKey_self]
    simp
  · have hb : (k == k') = false := by simpa using h
    rw [hasKey_eq_isSome, getKey_setKey_ne l k k' v hb, hb,
      ← hasKey_eq_isSome]
    simp

theorem hasKey_dictUpdate (base upd : ConfigDict) (k : String) :
    hasKey (dictUpdate base upd) k = (hasKey base k || hasKey upd k) := by
  induction upd generalizing base with
  | nil => simp [dictUpdate, hasKey]
  | cons p rest ih =>
    show hasKey (dictUpdate (setKey base p.1 p.2) rest) k = _
    rw [ih, hasKey_setKey]
    simp [hasKey, Bool.or_assoc]

theorem getKey_eq_none_of_hasKey_false {α : Type} (l : List (String × α))
    (k : String) (h : hasKey l k = false) : getKey l k = none := by
  rw [hasKey_eq_isSome] at h
  exact Option.not_isSome_iff_eq_none.1 (by simp [h])

theorem getKey_dictUpdate (base upd : ConfigDict) (k : String)
    (hnd : (upd.map Prod.fst).Nodup) :
    getKey (dictUpdate base upd) k =
      match getKey upd k with
      | some v => some v
      | none => getKey base k := by
  induction upd generalizing base with
  | nil => simp [dictUpdate, getKey, List.find?]
  | cons p rest ih =>
    have hnd' : (rest.map Prod.fst).Nodup := (List.nodup_cons.1 hnd).2
    have hstep : getKey (dictUpdate base (p :: rest)) k
        = getKey (dictUpdate (setKey base p.1 p.2) rest) k := rfl
    rw [hstep, ih _ hnd']
    by_cases hpk : p.1 == k
    · have hk : p.1 = k := by simpa using hpk
      have hrest : hasKey rest k = false := by
        by_contra hcon
        have : k ∈ rest.map Prod.fst := by
          have := Bool.of_not_eq_false hcon
          obtain ⟨q, hq, hqk⟩ := List.any_eq_true.1 this
          exact List.mem_map.2 ⟨q, hq, by simpa using hqk⟩
        exact (List.nodup_cons.1 hnd).1 (hk ▸ this)
      rw [getKey_eq_none_of_hasKey_false rest k hrest]
      have : getKey (p :: rest) k = some p.2 := by
        simp [getKey, List.find?, hpk]
      rw [this, hk, getKey_setKey_self]
    · have hne : (p.1 == k) = false := by simpa using hpk
      have : getKey (p :: rest) k = getKey rest k := by
        simp [getKey, List.find?, hne]
      rw [this, getKey_setKey_ne _ _ _ _ hne]

theorem getKey_dictPop_self (d : ConfigDict) (k : String) :
    getKey (dictPop d k) k = none := by
  rw [getKey]
  have hnone : List.find? (fun p => p.1 == k) (dictPop d k) = none := by
    rw [List.find?_eq_none]
    intro p hp
    have := (List.mem_filter.1 hp).2
    simpa [bne] using this
  rw [hnone]
  rfl

theorem hasKey_dictPop_self (d : ConfigDict) (k : String) :
    hasKey (dictPop d k) k = false := by
  rw [hasKey_eq_isSome, getKey_dictPop_self]
  rfl

/-- C9.  For a stored configuration that parses, has the legacy
`length_scale` key and no `speed` key of its own: the loaded
configuration never contains `length_scale`, and when the stored value
is a positive number `q` the loaded `speed` is `round(1/q, 1)`
(round half to even, Python's `round`). -/
theorem c9_length_scale_migration (loaded : ConfigDict)
    (hnd : (loaded.map Prod.fst).Nodup)
    (h1 : hasKey loaded "length_scale" = true)
    (h2 : hasKey loaded "speed" = false) :
    hasKey (load_config loaded) "length_scale" = false ∧
    (∀ q : ℚ, getKey loaded "length_scale" = some (.num q) → 0 < q →
        getKey (load_config loaded) "speed"
          = some (.num (round1 (1 / q)))) := by
  have hdef : hasKey get_default_config "length_scale" = false := by decide
  have hR0 : hasKey (dictUpdate get_default_config loaded) "length_scale"
      = true := by
    rw [hasKey_dictUpdate, h1, hdef]
    rfl
  have hcond :
      (hasKey (dictUpdate get_default_config loaded) "length_scale" = true)
        ∧ ¬(hasKey loaded "speed" = true) := ⟨hR0, by simp [h2]⟩
  have hspeedne : ("speed" == "length_scale") = false := by decide
  constructor
  · show hasKey (load_config loaded) "length_scale" = false
    simp only [load_config]
    rw [if_pos hcond]
    cases hls : getKey (dictUpdate get_default_config loaded) "length_scale"
      with
    | none => exact hasKey_dictPop_self _ _
    | some v =>
      cases v with
      | num q =>
        by_cases hq : 0 < q
        · simp [hq, hasKey_setKey, hasKey_dictPop_self, hspeedne]
        · simp [hq, hasKey_dictPop_self]
      | bool b =>
        cases b with
        | false => exact hasKey_dictPop_self _ _
        | true => simp [hasKey_setKey, hasKey_dictPop_self, hspeedne]
      | str s => exact hasKey_dictPop_self _ _
      | null => exact hasKey_dictPop_self _ _
  · intro q hq hqpos
    have hR0q : getKey (dictUpdate get_default_config loaded) "length_scale"
        = some (.num q) := by
      rw [getKey_dictUpdate _ _ _ hnd, hq]
    show getKey (load_config loaded) "speed" = some (.num (round1 (1 / q)))
    simp only [load_config]
    rw [if_pos hcond, hR0q]
    simpa [hqpos] using
      getKey_setKey_self
        (dictPop (dictUpdate get_default_config loaded) "length_scale")
        "speed" (CVal.num (round1 (1 / q)))

/-- C9 witness: a stored `{"length_scale": 1.5, "last_voice": ...}`
loads with no `length_scale` key and `speed = round(1/1.5, 1) = 0.7`. -/
theorem c9_length_scale_migration_witness :
    (hasKey (load_config c9Loaded) "length_scale" = false ∧
     (∀ q : ℚ, getKey c9Loaded "length_scale" = some (.num q) → 0 < q →
        getKey (load_config c9Loaded) "speed"
          = some (.num (round1 (1 / q))))) ∧
    getKey (load_config c9Loaded) "speed" = some (.num (7 / 10)) :=
  ⟨c9_length_scale_migration c9Loaded (by decide) (by decide) (by decide),
   by
    have h :=
      (c9_length_scale_migration c9Loaded (by decide) (by decide)
        (by decide)).2 (3 / 2) rfl (by norm_num)
    rw [h]
    norm_num [round1, roundHalfEven]⟩

/-! ### String disequality helpers for the command-line proofs -/

theorem take3_ne_append (s t q : String) (ht : 3 ≤ t.data.length)
    (hne : s.data.take 3 ≠ t.data.take 3) : s ≠ t ++ q := by
  intro h
  apply hne
  rw [h, String.data_append, List.take_append_of_le_length ht]

theorem append_take3_ne (t₁ q₁ t₂ q₂ : String) (h₁ : 3 ≤ t₁.data.length)
    (h₂ : 3 ≤ t₂.data.length) (hne : t₁.data.take 3 ≠ t₂.data.take 3) :
    t₁ ++ q₁ ≠ t₂ ++ q₂ := by
  intro h
  apply hne
  have h3 := congrArg (fun s => s.data.take 3) h
  simpa [String.data_append, List.take_append_of_le_length h₁,
    List.take_append_of_le_length h₂] using h3

/-- No token is both a random-mode marker and a length-scale argument:
they differ in their third character (`r` vs `l`). -/
theorem randomMarker_lengthArg_exclusive (a : String) :
    ¬(RandomMarker a ∧ LengthArg a) := by
  rintro ⟨hr, x, hx⟩
  rcases hr with h | ⟨q, hq⟩
  · exact take3_ne_append "--random" "--length_scale=" x (by decide)
      (by decide) (h ▸ hx)
  · exact append_take3_ne "--random=" q "--length_scale=" x (by decide)
      (by decide) (by decide) (hq ▸ hx)

/-- C8.  The built command line contains a random-mode marker iff
`random_voice` is set (with the quality filter encoded when present and
non-empty), contains a length-scale argument iff `length_scale ≠ 1.0`,
ends with the input files in their original order, is independent of
`voice_key`, and never contains the job's `voice_key`. -/
theorem c8_command_construction (scriptPath : String) (job : ConversionJob)
    (hs1 : ¬RandomMarker scriptPath) (hs2 : ¬LengthArg scriptPath)
    (hf : ∀ f ∈ job.files, ¬RandomMarker f ∧ ¬LengthArg f) :
    ((∃ a ∈ build_command scriptPath job, RandomMarker a) ↔
        job.random_voice = true) ∧
    (∀ q, job.random_voice = true → job.random_filter = some q → q ≠ "" →
        ("--random=" ++ q) ∈ build_command scriptPath job) ∧
    ((∃ a ∈ build_command scriptPath job, LengthArg a) ↔
        job.length_scale ≠ 1) ∧
    (∃ pre, build_command scriptPath job = pre ++ job.files) ∧
    (∀ x, build_command scriptPath { job with voice_key := x }
        = build_command scriptPath job) ∧
    (∀ k, job.voice_key = some k → k ≠ scriptPath → k ∉ job.files →
        ¬RandomMarker k → ¬LengthArg k →
        k ∉ build_command scriptPath job) := by
  have hmem : ∀ a, a ∈ build_command scriptPath job ↔
      a = scriptPath ∨
      (a ∈ (if job.random_voice then
          (if job.random_filter.getD "" ≠ "" then
            ["--random=" ++ job.random_filter.getD ""]
          else ["--random"]) else [])) ∨
      (a ∈ (if job.length_scale ≠ 1 then
          ["--length_scale=" ++ toString job.length_scale] else [])) ∨
      a ∈ job.files := by
    intro a
    simp [build_command, List.mem_append, or_assoc]
  refine ⟨?_, ?_, ?_, ?_, ?_, ?_⟩
  · constructor
    · rintro ⟨a, ha, hra⟩
      by_contra hrv
      have hrvf : job.random_voice = false := by
        cases h : job.random_voice
        · rfl
        · exact absurd h hrv
      rcases (hmem a).1 ha with h | h | h | h
      · exact hs1 (h ▸ hra)
      · rw [hrvf] at h
        simp at h
      · by_cases hls : job.length_scale ≠ 1
        · rw [if_pos hls] at h
          have : a = "--length_scale=" ++ toString job.length_scale := by
            simpa using h
          exact randomMarker_lengthArg_exclusive a
            ⟨hra, toString job.length_scale, this⟩
        · rw [if_neg hls] at h
          simp at h
      · exact (hf a h).1 hra
    · intro hrv
      by_cases hfil : job.random_filter.getD "" ≠ ""
      · refine ⟨"--random=" ++ job.random_filter.getD "", ?_,
          Or.inr ⟨_, rfl⟩⟩
        exact (hmem _).2 (Or.inr (Or.inl (by simp [hrv, hfil])))
      · refine ⟨"--random", ?_, Or.inl rfl⟩
        exact (hmem _).2 (Or.inr (Or.inl (by simp [hrv, hfil])))
  · intro q hrv hq hqne
    have hfil : job.random_filter.getD "" ≠ "" := by simp [hq, hqne]
    exact (hmem _).2 (Or.inr (Or.inl (by simp [hrv, hq, hfil, hqne])))
  · constructor
    · rintro ⟨a, ha, hla⟩
      intro hls
      rcases (hmem a).1 ha with h | h | h | h
      · exact hs2 (h ▸ hla)
      · by_cases hrv : job.random_voice
        · rw [if_pos hrv] at h
          by_cases hfil : job.random_filter.getD "" ≠ ""
          · rw [if_pos hfil] at h
            have : a = "--random=" ++ job.random_filter.getD "" := by
              simpa using h
            exact randomMarker_lengthArg_exclusive a
              ⟨Or.inr ⟨_, this⟩, hla⟩
          · rw [if_neg hfil] at h
            have : a = "--random" := by simpa using h
            exact randomMarker_lengthArg_exclusive a ⟨Or.inl this, hla⟩
        · rw [if_neg hrv] at h
          simp at h
      · rw [if_neg (by simpa using hls)] at h
        simp at h
      · exact (hf a h).2 hla
    · intro hls
      refine ⟨"--length_scale=" ++ toString job.length_scale, ?_,
        toString job.length_scale, rfl⟩
      exact (hmem _).2 (Or.inr (Or.inr (Or.inl (by simp [hls]))))
  · exact ⟨scriptPath ::
      ((if job.random_voice then
          (if job.random_filter.getD "" ≠ "" then
            ["--random=" ++ job.random_filter.getD ""]
          else ["--random"]) else []) ++
       (if job.length_scale ≠ 1 then
          ["--length_scale=" ++ toString job.length_scale] else [])),
      by simp [build_command, List.append_assoc]⟩
  · intro x
    rfl
  · intro k _ hksp hkf hkr hkl hk
    rcases (hmem k).1 hk with h | h | h | h
    · exact hksp h
    · by_cases hrv : job.random_voice
      · rw [if_pos hrv] at h
        by_cases hfil : job.random_filter.getD "" ≠ ""
        · rw [if_pos hfil] at h
          exact hkr (Or.inr ⟨_, by simpa using h⟩)
        · rw [if_neg hfil] at h
          exact hkr (Or.inl (by simpa using h))
      · rw [if_neg hrv] at h
        simp at h
    · by_cases hls : job.length_scale ≠ 1
      · rw [if_pos hls] at h
        exact hkl ⟨_, by simpa using h⟩
      · rw [if_neg hls] at h
        simp at h
    · exact hkf h

/-- C8 witness: a job with `random_voice=True`, `random_filter="medium"`,
`length_scale=1.8`, two input files and a `voice_key`, run through the
command builder with the `make-audiobook` script. -/
theorem c8_command_construction_witness :
    ((∃ a ∈ build_command "make-audiobook" c8Job, RandomMarker a) ↔
        c8Job.random_voice = true) ∧
    (∀ q, c8Job.random_voice = true → c8Job.random_filter = some q →
        q ≠ "" → ("--random=" ++ q) ∈ build_command "make-audiobook" c8Job) ∧
    ((∃ a ∈ build_command "make-audiobook" c8Job, LengthArg a) ↔
        c8Job.length_scale ≠ 1) ∧
    (∃ pre, build_command "make-audiobook" c8Job = pre ++ c8Job.files) ∧
    (∀ x, build_command "make-audiobook" { c8Job with voice_key := x }
        = build_command "make-audiobook" c8Job) ∧
    (∀ k, c8Job.voice_key = some k → k ≠ "make-audiobook" →
        k ∉ c8Job.files → ¬RandomMarker k → ¬LengthArg k →
        k ∉ build_command "make-audiobook" c8Job) := by
  refine c8_command_construction "make-audiobook" c8Job ?_ ?_ ?_
  · rintro (h | ⟨q, h⟩)
    · exact absurd h (by decide)
    · exact take3_ne_append "make-audiobook" "--random=" q (by decide)
        (by decide) h
  · rintro ⟨x, h⟩
    exact take3_ne_append "make-audiobook" "--length_scale=" x (by decide)
      (by decide) h
  · intro f hfm
    have hc : f = "book.txt" ∨ f = "notes.txt" := by
      simpa [c8Job] using hfm
    rcases hc with rfl | rfl <;>
      refine ⟨?_, ?_⟩ <;> first
      | (rintro (h | ⟨q, h⟩)
         · exact absurd h (by decide)
         · exact take3_ne_append _ "--random=" q (by decide) (by decide) h)
      | (rintro ⟨x, h⟩
         exact take3_ne_append _ "--length_scale=" x (by decide)
           (by decide) h)

/-! ### Clean-run lemmas for the download pipeline -/

/-- With the cancellation flag never set, the chunk loop writes every
chunk, emitting one clamped progress value per chunk. -/
theorem writeChunks_no_cancel (env : DlEnv) (h : env.cancelAt = none)
    (cs : List (List Nat)) (dl total : Nat) (w : List Nat) (st : DlState)
    (htot : 0 < total) :
    writeChunks env cs dl total w st =
      (w ++ cs.flatten, dl + (cs.map List.length).sum, false,
       { st with
          events := st.events ++ (cumulativeBytes dl cs).map
            (fun b => .progress (min (b * 100 / total) 99)),
          checks := st.checks + cs.length }) := by
  induction cs generalizing dl w st with
  | nil => simp [writeChunks, cumulativeBytes]
  | cons c cs ih =>
    have hflag : (checkCancelled env st).1 = false := by
      simp [checkCancelled, h]
    simp only [writeChunks, hflag, Bool.false_eq_true, if_false,
      if_pos htot, gt_iff_lt, if_true]
    rw [ih]
    simp [checkCancelled, cumulativeBytes, List.append_assoc,
      Nat.add_assoc, Nat.add_comm, Nat.add_left_comm]

/-- With the cancellation flag never set and the network serving the
file, `_download_file` succeeds: it adds the chunk progress events, and
the final path holds the joined chunk content. -/
theorem download_file_no_cancel (env : DlEnv) (h : env.cancelAt = none)
    (target : String) (chunks : List (List Nat))
    (hnet : env.network target = .ok chunks)
    (dl total : Nat) (st : DlState) (htot : 0 < total) :
    ∃ fs', download_file env target dl total st =
        .ok (dl + (chunks.map List.length).sum,
          { fs := fs',
            events := st.events ++ (cumulativeBytes dl chunks).map
              (fun b => .progress (min (b * 100 / total) 99)),
            checks := st.checks + chunks.length }) ∧
      getKey fs' target = some chunks.flatten := by
  have hw := writeChunks_no_cancel env h chunks dl total []
    { fs := setKey st.fs (target ++ ".tmp") [], events := st.events,
      checks := st.checks } htot
  refine ⟨setKey (fsRemove (setKey (setKey st.fs (target ++ ".tmp") [])
      (target ++ ".tmp") chunks.flatten) (target ++ ".tmp")) target
      chunks.flatten, ?_, getKey_setKey_self _ target chunks.flatten⟩
  simp only [download_file, hnet, hw, Bool.false_eq_true, if_false,
    List.nil_append]

/-- Prefix sums of a concatenation split at the boundary. -/
theorem cumulativeBytes_append (acc : Nat) (xs ys : List (List Nat)) :
    cumulativeBytes acc (xs ++ ys) =
      cumulativeBytes acc xs ++
      cumulativeBytes (acc + (xs.map List.length).sum) ys := by
  induction xs generalizing acc with
  | nil => simp [cumulativeBytes]
  | cons c cs ih =>
    have hadd : acc + (c.length + (List.map List.length cs).sum)
        = (acc + c.length) + (List.map List.length cs).sum := by omega
    simp only [List.cons_append, cumulativeBytes, List.map_cons,
      List.sum_cons, hadd]
    exact congrArg _ (ih (acc + c.length))

/-- With the cancellation flag never set, every file's network fetch
succeeding and every declared digest matching, the per-file loop of
`run` emits exactly the per-chunk progress values followed by
`progress 100` and `finished True`. -/
theorem runFiles_no_cancel (env : DlEnv) (voice : Voice)
    (h : env.cancelAt = none) (files : List (String × FileInfo))
    (dl total : Nat) (st : DlState) (htot : 0 < total)
    (hnet : ∀ p ∈ files, ∃ cs,
        env.network (voice.key ++ p.1) = .ok cs ∧
        (p.2.md5_digest.getD "" = "" ∨
         env.md5Hex cs.flatten = p.2.md5_digest.getD "")) :
    (runFiles env voice files dl total st).events =
      st.events ++
      (cumulativeBytes dl (netChunks env voice.key files)).map
        (fun b => DlEvent.progress (min (b * 100 / total) 99)) ++
      [.progress 100, .finished true] := by
  induction files generalizing dl st with
  | nil => simp [runFiles, netChunks, cumulativeBytes]
  | cons p rest ih =>
    obtain ⟨cs, hcs, hmd⟩ := hnet p (List.mem_cons_self p rest)
    have hflag : (checkCancelled env st).1 = false := by
      simp [checkCancelled, h]
    have hnetchunks : netChunks env voice.key (p :: rest)
        = cs ++ netChunks env voice.key rest := by
      simp [netChunks, hcs]
    obtain ⟨fs', hdl, hkey⟩ :=
      download_file_no_cancel env h (voice.key ++ p.1) cs hcs dl total
        (checkCancelled env st).2 htot
    simp only [runFiles, hflag, Bool.false_eq_true, if_false, hdl]
    have hrest : ∀ q ∈ rest, ∃ cs,
        env.network (voice.key ++ q.1) = .ok cs ∧
        (q.2.md5_digest.getD "" = "" ∨
         env.md5Hex cs.flatten = q.2.md5_digest.getD "") :=
      fun q hq => hnet q (List.mem_cons_of_mem p hq)
    have hassemble :
        (checkCancelled env st).2.events ++
          (cumulativeBytes dl cs).map
            (fun b => DlEvent.progress (min (b * 100 / total) 99)) ++
          (cumulativeBytes (dl + (cs.map List.length).sum)
              (netChunks env voice.key rest)).map
            (fun b => DlEvent.progress (min (b * 100 / total) 99)) ++
          [DlEvent.progress 100, DlEvent.finished true] =
        st.events ++
          (cumulativeBytes dl (netChunks env voice.key (p :: rest))).map
            (fun b => DlEvent.progress (min (b * 100 / total) 99)) ++
          [DlEvent.progress 100, DlEvent.finished true] := by
      rw [hnetchunks, cumulativeBytes_append]
      simp [checkCancelled, List.append_assoc]
    by_cases hexp : p.2.md5_digest.getD "" = ""
    · rw [if_neg (by simpa using hexp)]
      rw [ih _ _ hrest]
      exact hassemble
    · rw [if_pos (by simpa using hexp)]
      have hmd' : env.md5Hex cs.flatten = p.2.md5_digest.getD "" := by
        rcases hmd with hmd | hmd
        · exact absurd hmd hexp
        · exact hmd
      have hverify : verify_checksum env fs' (voice.key ++ p.1)
          (p.2.md5_digest.getD "") = .ok true := by
        rw [verify_checksum, hkey]
        simp [hmd']
      rw [hverify]
      rw [ih _ _ hrest]
      exact hassemble

theorem cumulativeBytes_le (acc : Nat) (cs : List (List Nat)) :
    ∀ b ∈ cumulativeBytes acc cs, acc ≤ b := by
  induction cs generalizing acc with
  | nil => simp [cumulativeBytes]
  | cons c cs ih =>
    intro b hb
    rcases List.mem_cons.1 hb with rfl | hb
    · omega
    · exact le_trans (by omega) (ih (acc + c.length) b hb)

theorem cumulativeBytes_chain (acc : Nat) (cs : List (List Nat)) :
    List.Chain' (· ≤ ·) (cumulativeBytes acc cs) := by
  induction cs generalizing acc with
  | nil => simp [cumulativeBytes]
  | cons c cs ih =>
    rw [cumulativeBytes, List.chain'_cons']
    exact ⟨fun y hy => cumulativeBytes_le _ _ y
      (List.mem_of_mem_head? hy), ih _⟩

/-- C6.  For a run with the flag never set, every fetch succeeding and
every declared digest matching (a successful install run): the emitted
progress values are exactly `floor(bytes_so_far / size * 100)` clamped
to at most 99 after each chunk, they are monotonically non-decreasing,
and the run ends with a final emission of exactly 100 followed by
`finished True`. -/
theorem c6_progress_monotone (env : DlEnv) (voice : Voice)
    (fs0 : List (String × List Nat))
    (hcancel : env.cancelAt = none) (hsize : 0 < voice.size_bytes)
    (hnet : ∀ p ∈ voice.files, ∃ cs,
        env.network (voice.key ++ p.1) = .ok cs ∧
        (p.2.md5_digest.getD "" = "" ∨
         env.md5Hex cs.flatten = p.2.md5_digest.getD "")) :
    progressValues (DownloadWorker.run env voice fs0).events =
      specProgress voice.size_bytes
        (cumulativeBytes 0 (netChunks env voice.key voice.files))
        ++ [100] ∧
    List.Chain' (· ≤ ·)
      (progressValues (DownloadWorker.run env voice fs0).events) ∧
    (progressValues (DownloadWorker.run env voice fs0).events).getLast?
        = some 100 ∧
    DlEvent.finished true ∈ (DownloadWorker.run env voice fs0).events := by
  have hev := runFiles_no_cancel env voice hcancel voice.files 0
    voice.size_bytes { fs := fs0, events := [], checks := 0 } hsize hnet
  have hrun : (DownloadWorker.run env voice fs0).events =
      (cumulativeBytes 0 (netChunks env voice.key voice.files)).map
        (fun b => DlEvent.progress (min (b * 100 / voice.size_bytes) 99))
        ++ [.progress 100, .finished true] := by
    rw [DownloadWorker.run, hev]
    simp
  have hpv : progressValues (DownloadWorker.run env voice fs0).events =
      specProgress voice.size_bytes
        (cumulativeBytes 0 (netChunks env voice.key voice.files))
        ++ [100] := by
    rw [hrun, progressValues, List.filterMap_append]
    congr 1
    rw [List.filterMap_map]
    exact congrFun (List.filterMap_eq_map _) _
  have hmono : ∀ a b : Nat, a ≤ b →
      min (a * 100 / voice.size_bytes) 99
        ≤ min (b * 100 / voice.size_bytes) 99 :=
    fun a b hab => min_le_min
      (Nat.div_le_div_right (Nat.mul_le_mul_right 100 hab)) (le_refl 99)
  refine ⟨hpv, ?_, ?_, ?_⟩
  · rw [hpv]
    rw [List.chain'_append]
    refine ⟨?_, List.chain'_singleton 100, ?_⟩
    · exact List.chain'_map_of_chain' _ hmono (cumulativeBytes_chain 0 _)
    · intro x hx y hy
      have hy' : y = 100 := by
        have := hy
        simp at this
        omega
      obtain ⟨hne, hxl⟩ := List.mem_getLast?_eq_getLast hx
      have hxmem : x ∈ specProgress voice.size_bytes
          (cumulativeBytes 0 (netChunks env voice.key voice.files)) := by
        rw [hxl]
        exact List.getLast_mem hne
      obtain ⟨b, _, hb⟩ := List.mem_map.1
        (show x ∈ List.map
          (fun b => min (b * 100 / voice.size_bytes) 99)
          (cumulativeBytes 0 (netChunks env voice.key voice.files))
          from hxmem)
      rw [hy', ← hb]
      exact le_trans (min_le_right _ _) (by omega)
  · rw [hpv]
    exact List.getLast?_concat _
  · rw [hrun]
    simp

/-- C6 witness: a single-file 3-byte voice served in one chunk with a
matching digest emits exactly `[99, 100]` — clamped, non-decreasing, and
ending in 100. -/
theorem c6_progress_monotone_witness :
    (progressValues (DownloadWorker.run dlEnvGood dlVoiceA []).events =
        specProgress dlVoiceA.size_bytes
          (cumulativeBytes 0
            (netChunks dlEnvGood dlVoiceA.key dlVoiceA.files)) ++ [100] ∧
     List.Chain' (· ≤ ·)
        (progressValues (DownloadWorker.run dlEnvGood dlVoiceA []).events) ∧
     (progressValues
        (DownloadWorker.run dlEnvGood dlVoiceA []).events).getLast?
          = some 100 ∧
     DlEvent.finished true
        ∈ (DownloadWorker.run dlEnvGood dlVoiceA []).events) ∧
    progressValues (DownloadWorker.run dlEnvGood dlVoiceA []).events
        = [99, 100] :=
  ⟨c6_progress_monotone dlEnvGood dlVoiceA [] rfl (by decide)
    (fun p hp => by
      have hc : p = (".onnx",
          ({ size_bytes := some 3, md5_digest := some "abc" } : FileInfo))
          := by simpa [dlVoiceA] using hp
      rw [hc]
      exact ⟨[[1, 2, 3]], rfl, Or.inr rfl⟩),
   by decide⟩

end MakeAudiobook
